import Mathlib

/-!
Verification of the memory-report metric extractor
(`socorro/processor/rules/memory_report_extraction.py`,
`MemoryReportExtraction._get_memory_measures`).

The Python routine is embedded shallowly: Python integers are `Int`,
Python strings are `String`, the mutable `all_metrics` dict is an
association list threaded through the loop, and the `raise ValueError`
exits are an `Except` error channel.
-/

namespace MemRep

/-- Contiguous-sublist test on character lists. -/
def listInfix (needle : List Char) : List Char → Bool
  | [] => needle.isEmpty
  | c :: rest => needle.isPrefixOf (c :: rest) || listInfix needle rest

/-- Python's `sub in s` substring test on strings. -/
def strContains (s sub : String) : Bool :=
  listInfix sub.data s.data

/-- Python's `s.startswith(p)`. -/
def strStartsWith (s p : String) : Bool :=
  p.data.isPrefixOf s.data

/-- Python's `key.replace("-", "_")`: for the one-character pattern `"-"`
this is exactly a character-wise replacement. -/
def dashToUnderscore (s : String) : String :=
  ⟨s.data.map (fun c => if c = '-' then '_' else c)⟩

/-- `KIND_NONHEAP = 0` in the source. -/
def KIND_NONHEAP : Int := 0
/-- `KIND_HEAP = 1` in the source. -/
def KIND_HEAP : Int := 1
/-- `UNITS_BYTES = 0` in the source. -/
def UNITS_BYTES : Int := 0

/-- One entry of the memory report's `reports` list. -/
structure Record where
  process : String
  path : String
  kind : Int
  units : Int
  amount : Int
deriving DecidableEq, Repr

/-- The `memory_report` object: version marker, capability flag and the
record list. -/
structure MemoryReport where
  version : Int
  hasMozMallocUsableSize : Bool
  reports : List Record
deriving DecidableEq, Repr

/-- The `ValueError` exits of `_get_memory_measures`, told apart by their
message: bad units for an `explicit/` report, bad kind for an `explicit/`
report, or no measurements found for the pid. -/
inductive ExtractError where
  | badUnits (path : String) (units : Int)
  | badKind (path : String) (kind : Int)
  | pidNotFound (pid : Int)
deriving DecidableEq, Repr

/-- The `all_metrics` dict: an insertion-ordered association list. -/
abbrev Metrics := List (String × Int)

/-- Keys of the `metrics_measured` dict, in source order. -/
def metricsMeasuredKeys : List String :=
  ["gfx-textures", "ghost-windows", "heap-allocated", "host-object-urls",
   "private", "resident", "resident-unique", "system-heap-allocated",
   "vsize-max-contiguous", "vsize"]

/-- Keys of the `metrics_derived` dict, in source order. -/
def metricsDerivedKeys : List String :=
  ["explicit", "heap-overhead", "heap-unclassified", "images",
   "js-main-runtime", "top-none-detached"]

/-- `all_metrics` after the two `update` calls: every key bound to `0`. -/
def initMetrics : Metrics :=
  (metricsMeasuredKeys ++ metricsDerivedKeys).map (fun k => (k, 0))

/-- Dict read `m[k]` (every key the source reads is present, so the
default `0` is never what a real lookup sees). -/
def getVal (m : Metrics) (k : String) : Int :=
  ((m.find? (fun kv => kv.1 == k)).map Prod.snd).getD 0

/-- Dict update `m[k] += v` (the source only ever adds to keys present in
the initial dict). -/
def addVal (k : String) (v : Int) : Metrics → Metrics
  | [] => []
  | kv :: rest =>
    if kv.1 == k then (kv.1, kv.2 + v) :: rest else kv :: addVal k v rest

/-- Dict assignment `m[k] = v`. -/
def setVal (k : String) (v : Int) : Metrics → Metrics
  | [] => []
  | kv :: rest =>
    if kv.1 == k then (kv.1, v) :: rest else kv :: setVal k v rest

/-- The mutable locals of the loop in `_get_memory_measures`. -/
structure LoopState where
  explicit_heap : Int
  explicit_nonheap : Int
  pid_found : Bool
  all_metrics : Metrics
deriving DecidableEq, Repr

/-- State before the loop starts. -/
def initState : LoopState := ⟨0, 0, false, initMetrics⟩

/-- The `if path.startswith("explicit/images/"): ... elif ... elif ...`
chain updating the derived buckets for a validated `explicit/` record. -/
def derivedUpdate (r : Record) (m : Metrics) : Metrics :=
  if strStartsWith r.path "explicit/images/" then
    addVal "images" r.amount m
  else if strContains r.path "top(none)/detached" then
    addVal "top-none-detached" r.amount m
  else if strStartsWith r.path "explicit/heap-overhead/" then
    addVal "heap-overhead" r.amount m
  else m

/-- One iteration of the `for report in memory_report["reports"]` loop. -/
def processRecord (pid_str : String) (st : LoopState) (r : Record) :
    Except ExtractError LoopState :=
  if !(strContains r.process pid_str) then .ok st
  else
    let st := { st with pid_found := true }
    if strStartsWith r.path "explicit/" then
      if r.units ≠ UNITS_BYTES then
        .error (.badUnits r.path r.units)
      else if r.kind = KIND_NONHEAP then
        .ok { st with explicit_nonheap := st.explicit_nonheap + r.amount,
                      all_metrics := derivedUpdate r st.all_metrics }
      else if r.kind = KIND_HEAP then
        .ok { st with explicit_heap := st.explicit_heap + r.amount,
                      all_metrics := derivedUpdate r st.all_metrics }
      else
        .error (.badKind r.path r.kind)
    else if strStartsWith r.path "js-main-runtime/" then
      .ok { st with all_metrics := addVal "js-main-runtime" r.amount st.all_metrics }
    else if metricsMeasuredKeys.contains r.path then
      .ok { st with all_metrics := addVal r.path r.amount st.all_metrics }
    else
      .ok st

/-- The whole record loop, aborting at the first raised error. -/
def processRecords (pid_str : String) (st : LoopState) :
    List Record → Except ExtractError LoopState
  | [] => .ok st
  | r :: rs =>
    match processRecord pid_str st r with
    | .error e => .error e
    | .ok st' => processRecords pid_str st' rs

/-- `pid_str = f"(pid {pid})"`. -/
def pidStr (pid : Int) : String := "(pid " ++ toString pid ++ ")"

/-- `MemoryReportExtraction._get_memory_measures(memory_report, pid)`. -/
def getMemoryMeasures (memory_report : MemoryReport) (pid : Int) :
    Except ExtractError Metrics :=
  match processRecords (pidStr pid) initState memory_report.reports with
  | .error e => .error e
  | .ok st =>
    if st.pid_found then
      let m₁ := setVal "heap-unclassified"
        (getVal st.all_metrics "heap-allocated" - st.explicit_heap)
        st.all_metrics
      let m₂ := setVal "explicit"
        (getVal m₁ "heap-allocated" + st.explicit_nonheap) m₁
      .ok (m₂.map (fun kv => (dashToUnderscore kv.1, kv.2)))
    else
      .error (.pidNotFound pid)

/-! ### Specification-side definitions

Pure descriptions of the extractor's behaviour (filters and sums over the
record list), to be related to the stateful loop above. -/

/-- The record belongs to the requested process: `pid_str in process`. -/
def recMatches (pid_str : String) (r : Record) : Bool :=
  strContains r.process pid_str

/-- The record sits in the `explicit/` tree. -/
def isExp (r : Record) : Bool :=
  strStartsWith r.path "explicit/"

/-- An `explicit/` record passes the units and kind validation; records
outside `explicit/` are never validated. -/
def recordValid (r : Record) : Bool :=
  !(isExp r) ||
    (r.units == UNITS_BYTES && (r.kind == KIND_NONHEAP || r.kind == KIND_HEAP))

/-- The record does not abort the loop: it is skipped or valid. -/
def recordOk (pid_str : String) (r : Record) : Bool :=
  !(recMatches pid_str r) || recordValid r

/-- The error a bad matching record raises: units are checked first. -/
def recordError (r : Record) : ExtractError :=
  if r.units ≠ UNITS_BYTES then .badUnits r.path r.units
  else .badKind r.path r.kind

/-- The single loop bucket (if any) a record's amount is added to,
mirroring the `if/elif` dispatch of the loop body. -/
def bucketOf (r : Record) : Option String :=
  if isExp r then
    if strStartsWith r.path "explicit/images/" then some "images"
    else if strContains r.path "top(none)/detached" then some "top-none-detached"
    else if strStartsWith r.path "explicit/heap-overhead/" then some "heap-overhead"
    else none
  else if strStartsWith r.path "js-main-runtime/" then some "js-main-runtime"
  else if metricsMeasuredKeys.contains r.path then some r.path
  else none

/-- Sum of the amounts of the records satisfying `p`. -/
def amountSum (p : Record → Bool) (rs : List Record) : Int :=
  ((rs.filter p).map Record.amount).sum

/-- The record is a matching record accumulated into bucket `k`. -/
def contrib (pid_str k : String) (r : Record) : Bool :=
  recMatches pid_str r && (bucketOf r == some k)

/-- Total accumulated into bucket `k` over a record list. -/
def bucketSum (pid_str k : String) (rs : List Record) : Int :=
  amountSum (contrib pid_str k) rs

/-- `explicit_heap`: total of matching `explicit/` records of kind HEAP. -/
def heapSum (pid_str : String) (rs : List Record) : Int :=
  amountSum (fun r => recMatches pid_str r && isExp r && r.kind == KIND_HEAP) rs

/-- `explicit_nonheap`: total of matching `explicit/` records of kind
NONHEAP. -/
def nonheapSum (pid_str : String) (rs : List Record) : Int :=
  amountSum (fun r => recMatches pid_str r && isExp r && r.kind == KIND_NONHEAP) rs

/-- Functional form of one loop iteration on a record that raises no
error. -/
def stepState (pid_str : String) (st : LoopState) (r : Record) : LoopState :=
  if recMatches pid_str r then
    { explicit_heap :=
        st.explicit_heap + (if isExp r && r.kind == KIND_HEAP then r.amount else 0),
      explicit_nonheap :=
        st.explicit_nonheap + (if isExp r && r.kind == KIND_NONHEAP then r.amount else 0),
      pid_found := true,
      all_metrics :=
        match bucketOf r with
        | some k => addVal k r.amount st.all_metrics
        | none => st.all_metrics }
  else st

/-- The keys of `all_metrics`, in insertion order. -/
def allKeys : List String := metricsMeasuredKeys ++ metricsDerivedKeys

/-- Final value of metric `k` (named before underscore rewriting). -/
def finalVal (pid_str k : String) (rs : List Record) : Int :=
  if k = "heap-unclassified" then
    bucketSum pid_str "heap-allocated" rs - heapSum pid_str rs
  else if k = "explicit" then
    bucketSum pid_str "heap-allocated" rs + nonheapSum pid_str rs
  else
    bucketSum pid_str k rs

/-- The whole output mapping of a successful extraction, described
without state. -/
def specOutput (pid_str : String) (rs : List Record) : Metrics :=
  allKeys.map (fun k => (dashToUnderscore k, finalVal pid_str k rs))

/-- The record influences the final value of metric `k`: it is
accumulated into bucket `k`, or `k` is one of the two arithmetic derived
metrics and the record feeds its formula. -/
def contributes (pid_str k : String) (r : Record) : Bool :=
  recMatches pid_str r &&
    ((bucketOf r == some k) ||
      ((k == "heap-unclassified" || k == "explicit") &&
        (isExp r || bucketOf r == some "heap-allocated")))

/-! ### Association-list lemmas -/

theorem keys_addVal (k : String) (v : Int) (m : Metrics) :
    (addVal k v m).map Prod.fst = m.map Prod.fst := by
  induction m with
  | nil => rfl
  | cons kv rest ih =>
    simp only [addVal]
    split <;> simp [ih]

theorem keys_setVal (k : String) (v : Int) (m : Metrics) :
    (setVal k v m).map Prod.fst = m.map Prod.fst := by
  induction m with
  | nil => rfl
  | cons kv rest ih =>
    simp only [setVal]
    split <;> simp [ih]

theorem getVal_nil (k : String) : getVal [] k = 0 := rfl

theorem getVal_cons (kv : String × Int) (m : Metrics) (k : String) :
    getVal (kv :: m) k = if kv.1 = k then kv.2 else getVal m k := by
  by_cases h : kv.1 = k
  · rw [getVal, List.find?_cons_of_pos _ (by simpa using h)]
    simp [h]
  · rw [getVal, List.find?_cons_of_neg _ (by simpa using h)]
    simp [h, getVal]

theorem addVal_cons (k : String) (v : Int) (kv : String × Int)
    (m : Metrics) :
    addVal k v (kv :: m) =
      if kv.1 = k then (kv.1, kv.2 + v) :: m else kv :: addVal k v m := by
  by_cases h : kv.1 = k <;> simp [addVal, h]

theorem setVal_cons (k : String) (v : Int) (kv : String × Int)
    (m : Metrics) :
    setVal k v (kv :: m) =
      if kv.1 = k then (kv.1, v) :: m else kv :: setVal k v m := by
  by_cases h : kv.1 = k <;> simp [setVal, h]

theorem getVal_addVal_self (k : String) (v : Int) (m : Metrics)
    (hk : k ∈ m.map Prod.fst) :
    getVal (addVal k v m) k = getVal m k + v := by
  induction m with
  | nil => simp at hk
  | cons kv rest ih =>
    rw [addVal_cons]
    by_cases h : kv.1 = k
    · rw [if_pos h, getVal_cons, getVal_cons, if_pos h, if_pos h]
    · have hk' : k ∈ rest.map Prod.fst := by
        rcases List.mem_map.mp hk with ⟨x, hx, hxk⟩
        rcases List.mem_cons.mp hx with h1 | h1
        · exact absurd (h1 ▸ hxk) h
        · exact List.mem_map.mpr ⟨x, h1, hxk⟩
      rw [if_neg h, getVal_cons, getVal_cons, if_neg h, if_neg h]
      exact ih hk'

theorem getVal_addVal_ne (k k' : String) (v : Int) (m : Metrics)
    (h : k' ≠ k) :
    getVal (addVal k v m) k' = getVal m k' := by
  induction m with
  | nil => rfl
  | cons kv rest ih =>
    rw [addVal_cons]
    by_cases hkv : kv.1 = k
    · have hne : kv.1 ≠ k' := fun he => h (he ▸ hkv ▸ rfl)
      rw [if_pos hkv, getVal_cons, getVal_cons, if_neg hne,
        if_neg (show ¬((kv.1, kv.2 + v).1 = k') from hne)]
    · rw [if_neg hkv, getVal_cons, getVal_cons]
      by_cases hkv' : kv.1 = k'
      · rw [if_pos hkv', if_pos hkv']
      · rw [if_neg hkv', if_neg hkv']
        exact ih

theorem getVal_setVal_self (k : String) (v : Int) (m : Metrics)
    (hk : k ∈ m.map Prod.fst) :
    getVal (setVal k v m) k = v := by
  induction m with
  | nil => simp at hk
  | cons kv rest ih =>
    rw [setVal_cons]
    by_cases h : kv.1 = k
    · rw [if_pos h, getVal_cons, if_pos h]
    · have hk' : k ∈ rest.map Prod.fst := by
        rcases List.mem_map.mp hk with ⟨x, hx, hxk⟩
        rcases List.mem_cons.mp hx with h1 | h1
        · exact absurd (h1 ▸ hxk) h
        · exact List.mem_map.mpr ⟨x, h1, hxk⟩
      rw [if_neg h, getVal_cons, if_neg h]
      exact ih hk'

theorem getVal_setVal_ne (k k' : String) (v : Int) (m : Metrics)
    (h : k' ≠ k) :
    getVal (setVal k v m) k' = getVal m k' := by
  induction m with
  | nil => rfl
  | cons kv rest ih =>
    rw [setVal_cons]
    by_cases hkv : kv.1 = k
    · have hne : kv.1 ≠ k' := fun he => h (he ▸ hkv ▸ rfl)
      rw [if_pos hkv, getVal_cons, getVal_cons, if_neg hne,
        if_neg (show ¬((kv.1, v).1 = k') from hne)]
    · rw [if_neg hkv, getVal_cons, getVal_cons]
      by_cases hkv' : kv.1 = k'
      · rw [if_pos hkv', if_pos hkv']
      · rw [if_neg hkv', if_neg hkv']
        exact ih

theorem getVal_keymap (L : List String) (f : String → String)
    (g : String → Int) (k : String) (hmem : k ∈ L)
    (hinj : ∀ k' ∈ L, f k' = f k → k' = k) :
    getVal (L.map (fun k' => (f k', g k'))) (f k) = g k := by
  induction L with
  | nil => simp at hmem
  | cons k1 rest ih =>
    rw [List.map_cons, getVal_cons]
    by_cases h : k1 = k
    · rw [if_pos (by simpa using congrArg f h)]
      exact congrArg g h
    · have hne : f k1 ≠ f k := fun he => h (hinj k1 (by simp) he)
      rw [if_neg (by simpa using hne)]
      have hmem' : k ∈ rest := by
        rcases List.mem_cons.mp hmem with h1 | h1
        · exact absurd h1.symm h
        · exact h1
      exact ih hmem' fun k' hk' he => hinj k' (List.mem_cons_of_mem _ hk') he

theorem assoc_ext (L : List String) (g : String → Int) (m : Metrics)
    (hkeys : m.map Prod.fst = L) (hnd : L.Nodup)
    (hval : ∀ k ∈ L, getVal m k = g k) :
    m = L.map (fun k => (k, g k)) := by
  induction L generalizing m with
  | nil => simpa using hkeys
  | cons k1 rest ih =>
    cases m with
    | nil => simp at hkeys
    | cons kv tail =>
      simp only [List.map_cons, List.cons.injEq] at hkeys
      obtain ⟨hk1, htail⟩ := hkeys
      have hv1 : getVal (kv :: tail) k1 = g k1 := hval k1 (by simp)
      rw [getVal_cons, if_pos hk1] at hv1
      have hnd' : rest.Nodup := (List.nodup_cons.mp hnd).2
      have hk1notin : k1 ∉ rest := (List.nodup_cons.mp hnd).1
      have hvals' : ∀ k ∈ rest, getVal tail k = g k := by
        intro k hk
        have hne : kv.1 ≠ k := fun he => hk1notin ((hk1 ▸ he) ▸ hk)
        have := hval k (List.mem_cons_of_mem _ hk)
        rwa [getVal_cons, if_neg hne] at this
      simp only [List.map_cons, List.cons.injEq]
      refine ⟨?_, ih tail htail hnd' hvals'⟩
      cases kv with
      | mk a b =>
        simp only at hk1 hv1
        simp [hk1, hv1]

/-! ### Loop characterization -/

theorem bucketOf_match_exp (r : Record) (m : Metrics) (he : isExp r = true) :
    (match bucketOf r with
      | some k => addVal k r.amount m
      | none => m) = derivedUpdate r m := by
  by_cases h1 : strStartsWith r.path "explicit/images/" = true <;>
    by_cases h2 : strContains r.path "top(none)/detached" = true <;>
      by_cases h3 : strStartsWith r.path "explicit/heap-overhead/" = true <;>
        simp [bucketOf, derivedUpdate, he, h1, h2, h3]

theorem processRecord_eq_error (ps : String) (st : LoopState) (r : Record)
    (h : recordOk ps r = false) :
    processRecord ps st r = .error (recordError r) := by
  have hm : recMatches ps r = true := by
    by_contra hc
    have hc' : recMatches ps r = false := by simpa using hc
    simp [recordOk, hc'] at h
  have hv : recordValid r = false := by
    by_contra hc
    have hc' : recordValid r = true := by simpa using hc
    simp [recordOk, hc'] at h
  have he : isExp r = true := by
    by_contra hc
    have hc' : isExp r = false := by simpa using hc
    simp [recordValid, hc'] at hv
  have hm' : strContains r.process ps = true := hm
  have he' : strStartsWith r.path "explicit/" = true := he
  by_cases hu : r.units = UNITS_BYTES
  · have hk : r.kind ≠ KIND_NONHEAP ∧ r.kind ≠ KIND_HEAP := by
      constructor <;> intro hc <;>
        simp [recordValid, isExp, he', hu, hc, KIND_NONHEAP, KIND_HEAP,
          UNITS_BYTES] at hv
    simp [processRecord, recordError, hm', he', hu, hk.1, hk.2]
  · simp [processRecord, recordError, hm', he', hu]

theorem processRecord_eq_ok (ps : String) (st : LoopState) (r : Record)
    (h : recordOk ps r = true) :
    processRecord ps st r = .ok (stepState ps st r) := by
  by_cases hm : recMatches ps r = true
  case neg =>
    have hm' : strContains r.process ps = false := by
      simpa [recMatches] using hm
    have hm'' : recMatches ps r = false := hm'
    simp [processRecord, stepState, hm', hm'']
  case pos =>
    have hm' : strContains r.process ps = true := hm
    have hv : recordValid r = true := by
      by_contra hc
      have hc' : recordValid r = false := by simpa using hc
      simp [recordOk, hm, hc'] at h
    by_cases he : isExp r = true
    · have he' : strStartsWith r.path "explicit/" = true := he
      have hval : r.units = UNITS_BYTES ∧ (r.kind = KIND_NONHEAP ∨ r.kind = KIND_HEAP) := by
        simpa [recordValid, isExp, he', UNITS_BYTES, KIND_NONHEAP, KIND_HEAP] using hv
      obtain ⟨hu, hk⟩ := hval
      by_cases h1 : strStartsWith r.path "explicit/images/" = true <;>
        by_cases h2 : strContains r.path "top(none)/detached" = true <;>
          by_cases h3 : strStartsWith r.path "explicit/heap-overhead/" = true <;>
            rcases hk with hk | hk <;>
              simp [processRecord, stepState, bucketOf, derivedUpdate, isExp,
                recMatches, hm', he', hu, hk, h1, h2, h3,
                KIND_NONHEAP, KIND_HEAP, UNITS_BYTES]
    · have he' : strStartsWith r.path "explicit/" = false := by
        simpa [isExp] using he
      by_cases hj : strStartsWith r.path "js-main-runtime/" = true
      · simp [processRecord, stepState, bucketOf, isExp, recMatches,
          hm', he', hj]
      · have hj' : strStartsWith r.path "js-main-runtime/" = false := by
          simpa using hj
        by_cases hc : metricsMeasuredKeys.contains r.path = true
        · have hcm : r.path ∈ metricsMeasuredKeys := by simpa using hc
          simp [processRecord, stepState, bucketOf, isExp, recMatches,
            hm', he', hj', hc, hcm]
        · have hc' : metricsMeasuredKeys.contains r.path = false := by
            simpa using hc
          have hcm : r.path ∉ metricsMeasuredKeys := by simpa using hc
          simp [processRecord, stepState, bucketOf, isExp, recMatches,
            hm', he', hj', hc', hcm]

theorem processRecords_eq (ps : String) (st : LoopState) (rs : List Record) :
    processRecords ps st rs =
      match rs.find? (fun r => !(recordOk ps r)) with
      | some r => .error (recordError r)
      | none => .ok (rs.foldl (stepState ps) st) := by
  induction rs generalizing st with
  | nil => rfl
  | cons r rest ih =>
    by_cases h : recordOk ps r = true
    · rw [show processRecords ps st (r :: rest) =
          (match processRecord ps st r with
           | .error e => .error e
           | .ok st' => processRecords ps st' rest) from rfl,
        processRecord_eq_ok ps st r h,
        List.find?_cons_of_neg _ (by simp [h]), List.foldl_cons]
      exact ih _
    · have h' : recordOk ps r = false := by simpa using h
      rw [show processRecords ps st (r :: rest) =
          (match processRecord ps st r with
           | .error e => .error e
           | .ok st' => processRecords ps st' rest) from rfl,
        processRecord_eq_error ps st r h',
        List.find?_cons_of_pos _ (by simp [h'])]

theorem amountSum_nil (p : Record → Bool) : amountSum p [] = 0 := rfl

theorem amountSum_cons (p : Record → Bool) (r : Record) (rs : List Record) :
    amountSum p (r :: rs) = (if p r then r.amount else 0) + amountSum p rs := by
  by_cases hp : p r <;> simp [amountSum, List.filter_cons, hp]

theorem heapSum_cons (ps : String) (r : Record) (rs : List Record) :
    heapSum ps (r :: rs) =
      (if recMatches ps r && isExp r && r.kind == KIND_HEAP then r.amount else 0) +
        heapSum ps rs :=
  amountSum_cons _ r rs

theorem nonheapSum_cons (ps : String) (r : Record) (rs : List Record) :
    nonheapSum ps (r :: rs) =
      (if recMatches ps r && isExp r && r.kind == KIND_NONHEAP then r.amount else 0) +
        nonheapSum ps rs :=
  amountSum_cons _ r rs

theorem bucketSum_cons (ps k : String) (r : Record) (rs : List Record) :
    bucketSum ps k (r :: rs) =
      (if contrib ps k r then r.amount else 0) + bucketSum ps k rs :=
  amountSum_cons _ r rs

theorem stepState_pid_found (ps : String) (st : LoopState) (r : Record) :
    (stepState ps st r).pid_found = (st.pid_found || recMatches ps r) := by
  by_cases hm : recMatches ps r = true
  · simp [stepState, hm]
  · have hm' : recMatches ps r = false := by simpa using hm
    simp [stepState, hm']

theorem foldl_pid_found (ps : String) (rs : List Record) (st : LoopState) :
    (rs.foldl (stepState ps) st).pid_found =
      (st.pid_found || rs.any (recMatches ps)) := by
  induction rs generalizing st with
  | nil => simp
  | cons r rest ih =>
    rw [List.foldl_cons, ih, List.any_cons, stepState_pid_found,
      Bool.or_assoc]

theorem stepState_heap (ps : String) (st : LoopState) (r : Record) :
    (stepState ps st r).explicit_heap =
      st.explicit_heap +
        (if recMatches ps r && isExp r && r.kind == KIND_HEAP then r.amount else 0) := by
  by_cases hm : recMatches ps r = true
  · simp [stepState, hm]
  · have hm' : recMatches ps r = false := by simpa using hm
    simp [stepState, hm']

theorem stepState_nonheap (ps : String) (st : LoopState) (r : Record) :
    (stepState ps st r).explicit_nonheap =
      st.explicit_nonheap +
        (if recMatches ps r && isExp r && r.kind == KIND_NONHEAP then r.amount else 0) := by
  by_cases hm : recMatches ps r = true
  · simp [stepState, hm]
  · have hm' : recMatches ps r = false := by simpa using hm
    simp [stepState, hm']

theorem foldl_heap (ps : String) (rs : List Record) (st : LoopState) :
    (rs.foldl (stepState ps) st).explicit_heap =
      st.explicit_heap + heapSum ps rs := by
  induction rs generalizing st with
  | nil => simp [heapSum, amountSum]
  | cons r rest ih =>
    rw [List.foldl_cons, ih, stepState_heap, heapSum_cons, add_assoc]

theorem foldl_nonheap (ps : String) (rs : List Record) (st : LoopState) :
    (rs.foldl (stepState ps) st).explicit_nonheap =
      st.explicit_nonheap + nonheapSum ps rs := by
  induction rs generalizing st with
  | nil => simp [nonheapSum, amountSum]
  | cons r rest ih =>
    rw [List.foldl_cons, ih, stepState_nonheap, nonheapSum_cons, add_assoc]

theorem stepState_keys (ps : String) (st : LoopState) (r : Record) :
    (stepState ps st r).all_metrics.map Prod.fst =
      st.all_metrics.map Prod.fst := by
  by_cases hm : recMatches ps r = true
  · cases hb : bucketOf r with
    | none => simp [stepState, hm, hb]
    | some b => simp [stepState, hm, hb, keys_addVal]
  · have hm' : recMatches ps r = false := by simpa using hm
    simp [stepState, hm']

theorem foldl_keys (ps : String) (rs : List Record) (st : LoopState) :
    (rs.foldl (stepState ps) st).all_metrics.map Prod.fst =
      st.all_metrics.map Prod.fst := by
  induction rs generalizing st with
  | nil => rfl
  | cons r rest ih =>
    rw [List.foldl_cons, ih, stepState_keys]

theorem bucketOf_mem_allKeys (r : Record) (b : String)
    (h : bucketOf r = some b) : b ∈ allKeys := by
  unfold bucketOf at h
  by_cases he : isExp r = true
  · rw [if_pos he] at h
    by_cases h1 : strStartsWith r.path "explicit/images/" = true
    · rw [if_pos h1] at h
      cases h
      decide
    · rw [if_neg h1] at h
      by_cases h2 : strContains r.path "top(none)/detached" = true
      · rw [if_pos h2] at h
        cases h
        decide
      · rw [if_neg h2] at h
        by_cases h3 : strStartsWith r.path "explicit/heap-overhead/" = true
        · rw [if_pos h3] at h
          cases h
          decide
        · rw [if_neg h3] at h
          cases h
  · rw [if_neg he] at h
    by_cases hj : strStartsWith r.path "js-main-runtime/" = true
    · rw [if_pos hj] at h
      cases h
      decide
    · rw [if_neg hj] at h
      by_cases hc : metricsMeasuredKeys.contains r.path = true
      · rw [if_pos hc] at h
        cases h
        have : r.path ∈ metricsMeasuredKeys := by
          simpa using hc
        exact List.mem_append_left _ this
      · rw [if_neg hc] at h
        cases h

theorem stepState_getVal (ps : String) (st : LoopState) (r : Record)
    (hkeys : st.all_metrics.map Prod.fst = allKeys) (k : String) :
    getVal (stepState ps st r).all_metrics k =
      getVal st.all_metrics k + (if contrib ps k r then r.amount else 0) := by
  by_cases hm : recMatches ps r = true
  · cases hb : bucketOf r with
    | none => simp [stepState, hm, hb, contrib]
    | some b =>
      by_cases hkb : k = b
      · subst hkb
        have hmem : k ∈ st.all_metrics.map Prod.fst := by
          rw [hkeys]
          exact bucketOf_mem_allKeys r k hb
        simp [stepState, hm, hb, contrib, getVal_addVal_self k r.amount _ hmem]
      · simp [stepState, hm, hb, contrib, getVal_addVal_ne b k r.amount _ hkb,
          Ne.symm hkb]
  · have hm' : recMatches ps r = false := by simpa using hm
    simp [stepState, hm', contrib]

theorem foldl_getVal (ps : String) (rs : List Record) (st : LoopState)
    (hkeys : st.all_metrics.map Prod.fst = allKeys) (k : String) :
    getVal (rs.foldl (stepState ps) st).all_metrics k =
      getVal st.all_metrics k + bucketSum ps k rs := by
  induction rs generalizing st with
  | nil => simp [bucketSum, amountSum]
  | cons r rest ih =>
    have hkeys' : (stepState ps st r).all_metrics.map Prod.fst = allKeys := by
      rw [stepState_keys, hkeys]
    rw [List.foldl_cons, ih _ hkeys', stepState_getVal ps st r hkeys k,
      bucketSum_cons, add_assoc]

/-! ### Top-level characterization of `_get_memory_measures` -/

theorem keys_initMetrics : initMetrics.map Prod.fst = allKeys := rfl

theorem getVal_const_zero (L : List String) (k : String) :
    getVal (L.map (fun k' => (k', (0 : Int)))) k = 0 := by
  induction L with
  | nil => rfl
  | cons a rest ih =>
    rw [List.map_cons, getVal_cons]
    by_cases h : a = k <;> simp [h, ih]

theorem getVal_initMetrics (k : String) : getVal initMetrics k = 0 :=
  getVal_const_zero allKeys k

theorem allKeys_nodup : allKeys.Nodup := by decide

theorem gMM_ok (v : Int) (b : Bool) (rs : List Record) (pid : Int)
    (hall : rs.all (recordOk (pidStr pid)) = true)
    (hany : rs.any (recMatches (pidStr pid)) = true) :
    getMemoryMeasures ⟨v, b, rs⟩ pid = .ok (specOutput (pidStr pid) rs) := by
  have hfind : rs.find? (fun r => !(recordOk (pidStr pid) r)) = none := by
    rw [List.find?_eq_none]
    intro r hr
    simp [List.all_eq_true.mp hall r hr]
  have hpf : (rs.foldl (stepState (pidStr pid)) initState).pid_found = true := by
    rw [foldl_pid_found]
    simp [hany, initState]
  simp only [getMemoryMeasures]
  rw [processRecords_eq, hfind]
  simp only [hpf, if_true]
  have keysF : (rs.foldl (stepState (pidStr pid)) initState).all_metrics.map
      Prod.fst = allKeys := by
    rw [foldl_keys]
    exact keys_initMetrics
  have getValF : ∀ k, getVal
      (rs.foldl (stepState (pidStr pid)) initState).all_metrics k =
        bucketSum (pidStr pid) k rs := by
    intro k
    rw [foldl_getVal _ _ _ keys_initMetrics]
    show getVal initMetrics k + bucketSum (pidStr pid) k rs =
      bucketSum (pidStr pid) k rs
    rw [getVal_initMetrics, zero_add]
  have heapF : (rs.foldl (stepState (pidStr pid)) initState).explicit_heap =
      heapSum (pidStr pid) rs := by
    rw [foldl_heap]
    show (0 : Int) + _ = _
    rw [zero_add]
  have nonheapF :
      (rs.foldl (stepState (pidStr pid)) initState).explicit_nonheap =
        nonheapSum (pidStr pid) rs := by
    rw [foldl_nonheap]
    show (0 : Int) + _ = _
    rw [zero_add]
  set F := rs.foldl (stepState (pidStr pid)) initState with hF
  set m₁ := setVal "heap-unclassified"
    (getVal F.all_metrics "heap-allocated" - F.explicit_heap) F.all_metrics
    with hm₁
  set m₂ := setVal "explicit"
    (getVal m₁ "heap-allocated" + F.explicit_nonheap) m₁ with hm₂
  have keys₁ : m₁.map Prod.fst = allKeys := by rw [hm₁, keys_setVal, keysF]
  have keys₂ : m₂.map Prod.fst = allKeys := by rw [hm₂, keys_setVal, keys₁]
  have hval₂ : ∀ k ∈ allKeys, getVal m₂ k = finalVal (pidStr pid) k rs := by
    intro k _
    by_cases hk1 : k = "heap-unclassified"
    · subst hk1
      rw [hm₂, getVal_setVal_ne _ _ _ _ (by decide), hm₁,
        getVal_setVal_self _ _ _ (by rw [keysF]; decide),
        getValF, heapF, finalVal, if_pos rfl]
    · by_cases hk2 : k = "explicit"
      · subst hk2
        rw [hm₂, getVal_setVal_self _ _ _ (by rw [keys₁]; decide), hm₁,
          getVal_setVal_ne _ _ _ _ (by decide),
          getValF, nonheapF, finalVal, if_neg (by decide), if_pos rfl]
      · rw [hm₂, getVal_setVal_ne _ _ _ _ hk2, hm₁,
          getVal_setVal_ne _ _ _ _ hk1, getValF, finalVal,
          if_neg hk1, if_neg hk2]
  have hm2eq : m₂ = allKeys.map (fun k => (k, finalVal (pidStr pid) k rs)) :=
    assoc_ext allKeys _ m₂ keys₂ allKeys_nodup hval₂
  rw [hm2eq]
  simp [specOutput, List.map_map, Function.comp]

theorem gMM_find_error (v : Int) (b : Bool) (rs : List Record) (pid : Int)
    (r : Record)
    (hfind : rs.find? (fun r => !(recordOk (pidStr pid) r)) = some r) :
    getMemoryMeasures ⟨v, b, rs⟩ pid = .error (recordError r) := by
  simp only [getMemoryMeasures]
  rw [processRecords_eq, hfind]

theorem gMM_notfound (v : Int) (b : Bool) (rs : List Record) (pid : Int)
    (hnone : ∀ r ∈ rs, recMatches (pidStr pid) r = false) :
    getMemoryMeasures ⟨v, b, rs⟩ pid = .error (.pidNotFound pid) := by
  have hfind : rs.find? (fun r => !(recordOk (pidStr pid) r)) = none := by
    rw [List.find?_eq_none]
    intro r hr
    simp [recordOk, hnone r hr]
  have hpf : (rs.foldl (stepState (pidStr pid)) initState).pid_found = false := by
    rw [foldl_pid_found]
    have hany : rs.any (recMatches (pidStr pid)) = false := by
      simp only [List.any_eq_false]
      intro r hr
      simp [hnone r hr]
    simp [hany, initState]
  simp only [getMemoryMeasures]
  rw [processRecords_eq, hfind]
  simp only [hpf, Bool.false_eq_true, if_false]

theorem gMM_ok_inv (v : Int) (b : Bool) (rs : List Record) (pid : Int)
    (out : Metrics) (h : getMemoryMeasures ⟨v, b, rs⟩ pid = .ok out) :
    rs.all (recordOk (pidStr pid)) = true ∧
      rs.any (recMatches (pidStr pid)) = true := by
  cases hfind : rs.find? (fun r => !(recordOk (pidStr pid) r)) with
  | some r =>
    rw [gMM_find_error v b rs pid r hfind] at h
    exact absurd h (by simp)
  | none =>
    have hall : rs.all (recordOk (pidStr pid)) = true := by
      rw [List.all_eq_true]
      intro r hr
      have := List.find?_eq_none.mp hfind r hr
      simpa using this
    refine ⟨hall, ?_⟩
    by_contra hc
    have hany : rs.any (recMatches (pidStr pid)) = false := by simpa using hc
    have hnone : ∀ r ∈ rs, recMatches (pidStr pid) r = false := by
      intro r hr
      have := List.any_eq_false.mp hany r hr
      simpa using this
    rw [gMM_notfound v b rs pid hnone] at h
    exact absurd h (by simp)

theorem gMM_ok_spec (v : Int) (b : Bool) (rs : List Record) (pid : Int)
    (out : Metrics) (h : getMemoryMeasures ⟨v, b, rs⟩ pid = .ok out) :
    out = specOutput (pidStr pid) rs := by
  obtain ⟨hall, hany⟩ := gMM_ok_inv v b rs pid out h
  have h2 := gMM_ok v b rs pid hall hany
  rw [h] at h2
  exact Except.ok.inj h2

/-! ### Permutation invariance of the specification sums -/

theorem amountSum_perm (p : Record → Bool) {rs rs' : List Record}
    (h : rs.Perm rs') : amountSum p rs = amountSum p rs' :=
  List.Perm.sum_eq ((h.filter p).map Record.amount)

theorem finalVal_perm (ps k : String) {rs rs' : List Record}
    (h : rs.Perm rs') : finalVal ps k rs = finalVal ps k rs' := by
  simp only [finalVal, bucketSum, heapSum, nonheapSum]
  split_ifs <;> simp [amountSum_perm _ h]

theorem specOutput_perm (ps : String) {rs rs' : List Record}
    (h : rs.Perm rs') : specOutput ps rs = specOutput ps rs' := by
  unfold specOutput
  have he : (fun k => (dashToUnderscore k, finalVal ps k rs)) =
      (fun k => (dashToUnderscore k, finalVal ps k rs')) :=
    funext fun k => by rw [finalVal_perm ps k h]
  rw [he]

/-! ### Helper computations on `specOutput` -/

theorem getVal_specOutput (ps : String) (rs : List Record) (k : String)
    (hmem : k ∈ allKeys)
    (hinj : ∀ k' ∈ allKeys, dashToUnderscore k' = dashToUnderscore k → k' = k) :
    getVal (specOutput ps rs) (dashToUnderscore k) = finalVal ps k rs :=
  getVal_keymap allKeys dashToUnderscore _ k hmem hinj

theorem finalVal_other (ps : String) (rs : List Record) (k : String)
    (h1 : k ≠ "heap-unclassified") (h2 : k ≠ "explicit") :
    finalVal ps k rs = bucketSum ps k rs := by
  simp only [finalVal]
  rw [if_neg h1, if_neg h2]

theorem finalVal_hu (ps : String) (rs : List Record) :
    finalVal ps "heap-unclassified" rs =
      bucketSum ps "heap-allocated" rs - heapSum ps rs := by
  simp [finalVal]

theorem finalVal_explicit (ps : String) (rs : List Record) :
    finalVal ps "explicit" rs =
      bucketSum ps "heap-allocated" rs + nonheapSum ps rs := by
  simp [finalVal]

theorem bucketSum_singleton (ps k : String) (r : Record) :
    bucketSum ps k [r] = if contrib ps k r then r.amount else 0 := by
  rw [bucketSum_cons]
  show _ + bucketSum ps k [] = _
  show _ + (0 : Int) = _
  rw [add_zero]

theorem bucketOf_exp_images (r : Record)
    (he : strStartsWith r.path "explicit/" = true)
    (h1 : strStartsWith r.path "explicit/images/" = true) :
    bucketOf r = some "images" := by
  simp [bucketOf, isExp, he, h1]

theorem bucketOf_exp_tnd (r : Record)
    (he : strStartsWith r.path "explicit/" = true)
    (h1 : strStartsWith r.path "explicit/images/" = false)
    (h2 : strContains r.path "top(none)/detached" = true) :
    bucketOf r = some "top-none-detached" := by
  simp [bucketOf, isExp, he, h1, h2]

theorem bucketOf_exp_ho (r : Record)
    (he : strStartsWith r.path "explicit/" = true)
    (h1 : strStartsWith r.path "explicit/images/" = false)
    (h2 : strContains r.path "top(none)/detached" = false)
    (h3 : strStartsWith r.path "explicit/heap-overhead/" = true) :
    bucketOf r = some "heap-overhead" := by
  simp [bucketOf, isExp, he, h1, h2, h3]

theorem bucketOf_exp_none (r : Record)
    (he : strStartsWith r.path "explicit/" = true)
    (h1 : strStartsWith r.path "explicit/images/" = false)
    (h2 : strContains r.path "top(none)/detached" = false)
    (h3 : strStartsWith r.path "explicit/heap-overhead/" = false) :
    bucketOf r = none := by
  simp [bucketOf, isExp, he, h1, h2, h3]

theorem d2u_injOn : ∀ k ∈ allKeys, ∀ k' ∈ allKeys,
    dashToUnderscore k' = dashToUnderscore k → k' = k := by decide

theorem amountSum_eq_zero (p : Record → Bool) (rs : List Record)
    (h : ∀ r ∈ rs, p r = false) : amountSum p rs = 0 := by
  unfold amountSum
  rw [List.filter_eq_nil_iff.mpr (fun r hr => by simp [h r hr])]
  rfl

theorem all_of_find?_none (ps : String) (rs : List Record)
    (hfind : rs.find? (fun r => !(recordOk ps r)) = none) :
    rs.all (recordOk ps) = true := by
  rw [List.all_eq_true]
  intro r hr
  have := List.find?_eq_none.mp hfind r hr
  simpa using this

theorem contrib_contributes (ps k : String) (r : Record)
    (h : contrib ps k r = true) : contributes ps k r = true := by
  simp only [contrib, Bool.and_eq_true] at h
  simp [contributes, h.1, h.2]

theorem contrib_ha_contributes (ps k : String) (r : Record)
    (hk : (k == "heap-unclassified" || k == "explicit") = true)
    (h : contrib ps "heap-allocated" r = true) :
    contributes ps k r = true := by
  simp only [contrib, Bool.and_eq_true] at h
  simp [contributes, h.1, h.2, hk]

theorem exp_contributes (ps k : String) (r : Record)
    (hk : (k == "heap-unclassified" || k == "explicit") = true)
    (hm : recMatches ps r = true) (he : isExp r = true) :
    contributes ps k r = true := by
  simp [contributes, hm, he, hk]

/-! ### The claims -/

/-- C8: a report with the single record
`{process: "(pid 7)", path: "resident", kind: NONHEAP, units: BYTES,
amount: 1000}` extracted for pid 7 succeeds with `resident = 1000`,
`explicit = 0`, `heap_unclassified = 0`, and `0` for every other key of
the fixed output key set. -/
theorem claim8_scenarioA :
    getMemoryMeasures
        ⟨1, true, [⟨"(pid 7)", "resident", KIND_NONHEAP, UNITS_BYTES, 1000⟩]⟩ 7 =
      .ok [("gfx_textures", 0), ("ghost_windows", 0), ("heap_allocated", 0),
        ("host_object_urls", 0), ("private", 0), ("resident", 1000),
        ("resident_unique", 0), ("system_heap_allocated", 0),
        ("vsize_max_contiguous", 0), ("vsize", 0), ("explicit", 0),
        ("heap_overhead", 0), ("heap_unclassified", 0), ("images", 0),
        ("js_main_runtime", 0), ("top_none_detached", 0)] := rfl

/-- C10: the extraction result depends only on the requested pid and the
record list; the `version` and `hasMozMallocUsableSize` fields never
influence the outcome. -/
theorem claim10_only_reports (v₁ v₂ : Int) (b₁ b₂ : Bool)
    (rs : List Record) (pid : Int) :
    getMemoryMeasures ⟨v₁, b₁, rs⟩ pid = getMemoryMeasures ⟨v₂, b₂, rs⟩ pid :=
  rfl

/-- C2: on every successful extraction, `heap_unclassified` equals the
sum accumulated into the `heap-allocated` measured bucket minus the total
of amounts of matching `explicit/` records of kind HEAP, and `explicit`
equals the `heap-allocated` sum plus the total of amounts of matching
`explicit/` records of kind NONHEAP; negative values are returned as-is
(the equations hold with no sign restriction). -/
theorem claim2_derived_arithmetic (rep : MemoryReport) (pid : Int)
    (out : Metrics) (h : getMemoryMeasures rep pid = .ok out) :
    getVal out "heap_unclassified" =
      bucketSum (pidStr pid) "heap-allocated" rep.reports -
        heapSum (pidStr pid) rep.reports ∧
    getVal out "explicit" =
      bucketSum (pidStr pid) "heap-allocated" rep.reports +
        nonheapSum (pidStr pid) rep.reports := by
  obtain ⟨v, b, rs⟩ := rep
  have hspec := gMM_ok_spec v b rs pid out h
  subst hspec
  constructor
  · rw [show ("heap_unclassified" : String) =
        dashToUnderscore "heap-unclassified" from rfl,
      getVal_specOutput _ _ _ (by decide)
        (d2u_injOn "heap-unclassified" (by decide))]
    exact finalVal_hu _ _
  · rw [show ("explicit" : String) = dashToUnderscore "explicit" from rfl,
      getVal_specOutput _ _ _ (by decide)
        (d2u_injOn "explicit" (by decide))]
    exact finalVal_explicit _ _

/-- C2 witness at a concrete input: heap-allocated 500 and a HEAP
`explicit/images/foo` record of 200 for pid 7. -/
theorem claim2_witness :
    getVal [("gfx_textures", 0), ("ghost_windows", 0), ("heap_allocated", 500),
        ("host_object_urls", 0), ("private", 0), ("resident", 0),
        ("resident_unique", 0), ("system_heap_allocated", 0),
        ("vsize_max_contiguous", 0), ("vsize", 0), ("explicit", 500),
        ("heap_overhead", 0), ("heap_unclassified", 300), ("images", 200),
        ("js_main_runtime", 0), ("top_none_detached", 0)] "heap_unclassified" =
      bucketSum (pidStr 7) "heap-allocated"
          [⟨"(pid 7)", "heap-allocated", KIND_NONHEAP, UNITS_BYTES, 500⟩,
           ⟨"(pid 7)", "explicit/images/foo", KIND_HEAP, UNITS_BYTES, 200⟩] -
        heapSum (pidStr 7)
          [⟨"(pid 7)", "heap-allocated", KIND_NONHEAP, UNITS_BYTES, 500⟩,
           ⟨"(pid 7)", "explicit/images/foo", KIND_HEAP, UNITS_BYTES, 200⟩] ∧
    getVal [("gfx_textures", 0), ("ghost_windows", 0), ("heap_allocated", 500),
        ("host_object_urls", 0), ("private", 0), ("resident", 0),
        ("resident_unique", 0), ("system_heap_allocated", 0),
        ("vsize_max_contiguous", 0), ("vsize", 0), ("explicit", 500),
        ("heap_overhead", 0), ("heap_unclassified", 300), ("images", 200),
        ("js_main_runtime", 0), ("top_none_detached", 0)] "explicit" =
      bucketSum (pidStr 7) "heap-allocated"
          [⟨"(pid 7)", "heap-allocated", KIND_NONHEAP, UNITS_BYTES, 500⟩,
           ⟨"(pid 7)", "explicit/images/foo", KIND_HEAP, UNITS_BYTES, 200⟩] +
        nonheapSum (pidStr 7)
          [⟨"(pid 7)", "heap-allocated", KIND_NONHEAP, UNITS_BYTES, 500⟩,
           ⟨"(pid 7)", "explicit/images/foo", KIND_HEAP, UNITS_BYTES, 200⟩] :=
  claim2_derived_arithmetic
    ⟨1, true, [⟨"(pid 7)", "heap-allocated", KIND_NONHEAP, UNITS_BYTES, 500⟩,
               ⟨"(pid 7)", "explicit/images/foo", KIND_HEAP, UNITS_BYTES, 200⟩]⟩
    7 _ rfl

/-- C3: whenever extraction succeeds the output's key list is exactly the
16 fixed names (the 10 measured and 6 derived bucket names with dashes
replaced by underscores), whatever the input records were; and a key to
which no record of the report contributes is mapped to 0. -/
theorem claim3_fixed_keys (rep : MemoryReport) (pid : Int) (out : Metrics)
    (h : getMemoryMeasures rep pid = .ok out) :
    out.map Prod.fst =
      ["gfx_textures", "ghost_windows", "heap_allocated", "host_object_urls",
       "private", "resident", "resident_unique", "system_heap_allocated",
       "vsize_max_contiguous", "vsize", "explicit", "heap_overhead",
       "heap_unclassified", "images", "js_main_runtime",
       "top_none_detached"] ∧
    ∀ k ∈ allKeys,
      (∀ r ∈ rep.reports, contributes (pidStr pid) k r = false) →
        getVal out (dashToUnderscore k) = 0 := by
  obtain ⟨v, b, rs⟩ := rep
  have hspec := gMM_ok_spec v b rs pid out h
  subst hspec
  constructor
  · show (allKeys.map
      (fun k => (dashToUnderscore k, finalVal (pidStr pid) k rs))).map
        Prod.fst = _
    rw [List.map_map]
    rfl
  · intro k hk hnone
    rw [getVal_specOutput _ _ _ hk (d2u_injOn k hk)]
    have hnc : ∀ r ∈ rs, contrib (pidStr pid) k r = false := by
      intro r hr
      by_contra hc
      have hc' : contrib (pidStr pid) k r = true := by simpa using hc
      have := contrib_contributes _ _ _ hc'
      rw [hnone r hr] at this
      exact absurd this (by simp)
    by_cases hk1 : k = "heap-unclassified"
    · subst hk1
      rw [finalVal_hu]
      have h1 : bucketSum (pidStr pid) "heap-allocated" rs = 0 := by
        apply amountSum_eq_zero
        intro r hr
        by_contra hc
        have hc' : contrib (pidStr pid) "heap-allocated" r = true := by
          simpa using hc
        have := contrib_ha_contributes (pidStr pid) "heap-unclassified" r
          (by decide) hc'
        rw [hnone r hr] at this
        exact absurd this (by simp)
      have h2 : heapSum (pidStr pid) rs = 0 := by
        apply amountSum_eq_zero
        intro r hr
        by_contra hc
        have hc' : recMatches (pidStr pid) r = true ∧ isExp r = true ∧
            r.kind = KIND_HEAP := by simpa using hc
        have := exp_contributes (pidStr pid) "heap-unclassified" r
          (by decide) hc'.1 hc'.2.1
        rw [hnone r hr] at this
        exact absurd this (by simp)
      rw [h1, h2]
      rfl
    · by_cases hk2 : k = "explicit"
      · subst hk2
        rw [finalVal_explicit]
        have h1 : bucketSum (pidStr pid) "heap-allocated" rs = 0 := by
          apply amountSum_eq_zero
          intro r hr
          by_contra hc
          have hc' : contrib (pidStr pid) "heap-allocated" r = true := by
            simpa using hc
          have := contrib_ha_contributes (pidStr pid) "explicit" r
            (by decide) hc'
          rw [hnone r hr] at this
          exact absurd this (by simp)
        have h2 : nonheapSum (pidStr pid) rs = 0 := by
          apply amountSum_eq_zero
          intro r hr
          by_contra hc
          have hc' : recMatches (pidStr pid) r = true ∧ isExp r = true ∧
              r.kind = KIND_NONHEAP := by simpa using hc
          have := exp_contributes (pidStr pid) "explicit" r
            (by decide) hc'.1 hc'.2.1
          rw [hnone r hr] at this
          exact absurd this (by simp)
        rw [h1, h2]
        rfl
      · rw [finalVal_other _ _ _ hk1 hk2]
        exact amountSum_eq_zero _ _ hnc

/-- C3 witness at a concrete input: a single `resident` record for pid 7;
no record contributes to `images`, which is 0. -/
theorem claim3_witness :
    ((getMemoryMeasures
        ⟨1, true, [⟨"(pid 7)", "resident", KIND_NONHEAP, UNITS_BYTES, 1000⟩]⟩
        7).toOption.getD []).map Prod.fst =
      ["gfx_textures", "ghost_windows", "heap_allocated", "host_object_urls",
       "private", "resident", "resident_unique", "system_heap_allocated",
       "vsize_max_contiguous", "vsize", "explicit", "heap_overhead",
       "heap_unclassified", "images", "js_main_runtime",
       "top_none_detached"] ∧
    ∀ k ∈ allKeys,
      (∀ r ∈ [(⟨"(pid 7)", "resident", KIND_NONHEAP, UNITS_BYTES, 1000⟩ : Record)],
        contributes (pidStr 7) k r = false) →
        getVal ((getMemoryMeasures
          ⟨1, true, [⟨"(pid 7)", "resident", KIND_NONHEAP, UNITS_BYTES, 1000⟩]⟩
          7).toOption.getD []) (dashToUnderscore k) = 0 :=
  claim3_fixed_keys
    ⟨1, true, [⟨"(pid 7)", "resident", KIND_NONHEAP, UNITS_BYTES, 1000⟩]⟩
    7 _ rfl

/-- C4: extraction fails with the pid-not-found error (identifying the
requested pid) exactly when no record's `process` field contains the
marker `(pid N)`; a report in which some record matches never produces
that error, however many non-matching records it also holds. -/
theorem claim4_notfound_iff (rep : MemoryReport) (pid : Int) :
    getMemoryMeasures rep pid = .error (.pidNotFound pid) ↔
      ∀ r ∈ rep.reports, strContains r.process (pidStr pid) = false := by
  obtain ⟨v, b, rs⟩ := rep
  constructor
  · intro h r hr
    by_contra hc
    have hm : recMatches (pidStr pid) r = true := by
      simpa [recMatches] using hc
    cases hfind : rs.find? (fun r => !(recordOk (pidStr pid) r)) with
    | some r' =>
      rw [gMM_find_error v b rs pid r' hfind] at h
      have herr : recordError r' = .pidNotFound pid := by
        injection h
      unfold recordError at herr
      split at herr <;> exact absurd herr (by simp)
    | none =>
      have hany : rs.any (recMatches (pidStr pid)) = true := by
        rw [List.any_eq_true]
        exact ⟨r, hr, hm⟩
      rw [gMM_ok v b rs pid (all_of_find?_none _ _ hfind) hany] at h
      exact absurd h (by simp)
  · intro hnone
    exact gMM_notfound v b rs pid (fun r hr => hnone r hr)

/-- C4 witness at a concrete input: one record for pid 9, requested
pid 7. -/
theorem claim4_witness :
    (getMemoryMeasures
        ⟨1, true, [⟨"(pid 9)", "vsize", KIND_NONHEAP, UNITS_BYTES, 3⟩]⟩ 7 =
      .error (.pidNotFound 7)) ↔
      ∀ r ∈ [(⟨"(pid 9)", "vsize", KIND_NONHEAP, UNITS_BYTES, 3⟩ : Record)],
        strContains r.process (pidStr 7) = false :=
  claim4_notfound_iff
    ⟨1, true, [⟨"(pid 9)", "vsize", KIND_NONHEAP, UNITS_BYTES, 3⟩]⟩ 7

/-- C5: a report holding a matching-pid record in the `explicit/` tree
whose units are not BYTES (and no other loop-aborting record) fails with
the bad-units validation error naming that record's path and units; no
mapping is returned. -/
theorem claim5_bad_units (rep : MemoryReport) (pid : Int) (r : Record)
    (hmem : r ∈ rep.reports)
    (hm : strContains r.process (pidStr pid) = true)
    (he : strStartsWith r.path "explicit/" = true)
    (hu : r.units ≠ UNITS_BYTES) :
    (getMemoryMeasures rep pid).isOk = false ∧
    getMemoryMeasures rep pid ≠ .error (.pidNotFound pid) ∧
    ((∀ r' ∈ rep.reports, recordOk (pidStr pid) r' = false → r' = r) →
      getMemoryMeasures rep pid = .error (.badUnits r.path r.units)) := by
  obtain ⟨v, b, rs⟩ := rep
  have hbad : recordOk (pidStr pid) r = false := by
    simp [recordOk, recMatches, hm, recordValid, isExp, he, hu]
  cases hfind : rs.find? (fun r' => !(recordOk (pidStr pid) r')) with
  | none =>
    exfalso
    have := List.find?_eq_none.mp hfind r hmem
    simp [hbad] at this
  | some r' =>
    have hr'mem : r' ∈ rs := List.mem_of_find?_eq_some hfind
    have hr'bad : (!(recordOk (pidStr pid) r')) = true :=
      @List.find?_some Record (fun r' => !(recordOk (pidStr pid) r')) r' rs hfind
    have hgmm := gMM_find_error v b rs pid r' hfind
    refine ⟨by rw [hgmm]; rfl, ?_, ?_⟩
    · rw [hgmm]
      intro hcc
      have herr : recordError r' = .pidNotFound pid := by injection hcc
      unfold recordError at herr
      split at herr <;> exact absurd herr (by simp)
    · intro huniq
      have hr'eq : r' = r := huniq r' hr'mem (by simpa using hr'bad)
      subst hr'eq
      rw [hgmm]
      unfold recordError
      rw [if_pos hu]

/-- C5 witness at a concrete input: a matching `explicit/foo` record with
units 3. -/
theorem claim5_witness :
    ((getMemoryMeasures
        ⟨1, true, [⟨"(pid 7)", "explicit/foo", KIND_HEAP, 3, 5⟩]⟩ 7).isOk =
      false) ∧
    getMemoryMeasures
        ⟨1, true, [⟨"(pid 7)", "explicit/foo", KIND_HEAP, 3, 5⟩]⟩ 7 ≠
      .error (.pidNotFound 7) ∧
    ((∀ r' ∈ [(⟨"(pid 7)", "explicit/foo", KIND_HEAP, 3, 5⟩ : Record)],
        recordOk (pidStr 7) r' = false →
          r' = ⟨"(pid 7)", "explicit/foo", KIND_HEAP, 3, 5⟩) →
      getMemoryMeasures
          ⟨1, true, [⟨"(pid 7)", "explicit/foo", KIND_HEAP, 3, 5⟩]⟩ 7 =
        .error (.badUnits "explicit/foo" 3)) :=
  claim5_bad_units
    ⟨1, true, [⟨"(pid 7)", "explicit/foo", KIND_HEAP, 3, 5⟩]⟩ 7
    ⟨"(pid 7)", "explicit/foo", KIND_HEAP, 3, 5⟩
    (by decide) (by decide) (by decide) (by decide)

/-- C6: a report holding a matching-pid record in the `explicit/` tree
whose units are BYTES but whose kind is neither HEAP nor NONHEAP (and no
other loop-aborting record) fails with the bad-kind validation error
naming that record's path and kind; no mapping is returned. -/
theorem claim6_bad_kind (rep : MemoryReport) (pid : Int) (r : Record)
    (hmem : r ∈ rep.reports)
    (hm : strContains r.process (pidStr pid) = true)
    (he : strStartsWith r.path "explicit/" = true)
    (hu : r.units = UNITS_BYTES)
    (hk0 : r.kind ≠ KIND_NONHEAP)
    (hk1 : r.kind ≠ KIND_HEAP) :
    (getMemoryMeasures rep pid).isOk = false ∧
    getMemoryMeasures rep pid ≠ .error (.pidNotFound pid) ∧
    ((∀ r' ∈ rep.reports, recordOk (pidStr pid) r' = false → r' = r) →
      getMemoryMeasures rep pid = .error (.badKind r.path r.kind)) := by
  obtain ⟨v, b, rs⟩ := rep
  have hbad : recordOk (pidStr pid) r = false := by
    simp [recordOk, recMatches, hm, recordValid, isExp, he, hu, hk0, hk1]
  cases hfind : rs.find? (fun r' => !(recordOk (pidStr pid) r')) with
  | none =>
    exfalso
    have := List.find?_eq_none.mp hfind r hmem
    simp [hbad] at this
  | some r' =>
    have hr'mem : r' ∈ rs := List.mem_of_find?_eq_some hfind
    have hr'bad : (!(recordOk (pidStr pid) r')) = true :=
      @List.find?_some Record (fun r' => !(recordOk (pidStr pid) r')) r' rs hfind
    have hgmm := gMM_find_error v b rs pid r' hfind
    refine ⟨by rw [hgmm]; rfl, ?_, ?_⟩
    · rw [hgmm]
      intro hcc
      have herr : recordError r' = .pidNotFound pid := by injection hcc
      unfold recordError at herr
      split at herr <;> exact absurd herr (by simp)
    · intro huniq
      have hr'eq : r' = r := huniq r' hr'mem (by simpa using hr'bad)
      subst hr'eq
      rw [hgmm]
      unfold recordError
      rw [if_neg (fun hc => hc hu)]

/-- C6 witness at a concrete input: a matching `explicit/foo` record with
units BYTES and kind 9. -/
theorem claim6_witness :
    ((getMemoryMeasures
        ⟨1, true, [⟨"(pid 7)", "explicit/foo", 9, UNITS_BYTES, 5⟩]⟩ 7).isOk =
      false) ∧
    getMemoryMeasures
        ⟨1, true, [⟨"(pid 7)", "explicit/foo", 9, UNITS_BYTES, 5⟩]⟩ 7 ≠
      .error (.pidNotFound 7) ∧
    ((∀ r' ∈ [(⟨"(pid 7)", "explicit/foo", 9, UNITS_BYTES, 5⟩ : Record)],
        recordOk (pidStr 7) r' = false →
          r' = ⟨"(pid 7)", "explicit/foo", 9, UNITS_BYTES, 5⟩) →
      getMemoryMeasures
          ⟨1, true, [⟨"(pid 7)", "explicit/foo", 9, UNITS_BYTES, 5⟩]⟩ 7 =
        .error (.badKind "explicit/foo" 9)) :=
  claim6_bad_kind
    ⟨1, true, [⟨"(pid 7)", "explicit/foo", 9, UNITS_BYTES, 5⟩]⟩ 7
    ⟨"(pid 7)", "explicit/foo", 9, UNITS_BYTES, 5⟩
    (by decide) (by decide) (by decide) (by decide) (by decide) (by decide)

/-- C7: on a report where extraction succeeds, any permutation of the
record list yields exactly the same output mapping. -/
theorem claim7_permutation (v v' : Int) (b b' : Bool)
    (rs rs' : List Record) (pid : Int) (out : Metrics)
    (hperm : rs.Perm rs')
    (h : getMemoryMeasures ⟨v, b, rs⟩ pid = .ok out) :
    getMemoryMeasures ⟨v', b', rs'⟩ pid = .ok out := by
  obtain ⟨hall, hany⟩ := gMM_ok_inv v b rs pid out h
  have hspec := gMM_ok_spec v b rs pid out h
  have hall' : rs'.all (recordOk (pidStr pid)) = true := by
    rw [List.all_eq_true] at hall ⊢
    intro r hr
    exact hall r (hperm.mem_iff.mpr hr)
  have hany' : rs'.any (recMatches (pidStr pid)) = true := by
    rw [List.any_eq_true] at hany ⊢
    obtain ⟨r, hr, hpr⟩ := hany
    exact ⟨r, hperm.mem_iff.mp hr, hpr⟩
  rw [gMM_ok v' b' rs' pid hall' hany', hspec, specOutput_perm _ hperm]

/-- C7 witness at a concrete input: swapping the two records of the
scenario-B report leaves the output unchanged. -/
theorem claim7_witness :
    getMemoryMeasures
        ⟨1, true, [⟨"(pid 7)", "explicit/images/foo", KIND_HEAP, UNITS_BYTES, 200⟩,
                   ⟨"(pid 7)", "heap-allocated", KIND_NONHEAP, UNITS_BYTES, 500⟩]⟩
        7 =
      .ok [("gfx_textures", 0), ("ghost_windows", 0), ("heap_allocated", 500),
        ("host_object_urls", 0), ("private", 0), ("resident", 0),
        ("resident_unique", 0), ("system_heap_allocated", 0),
        ("vsize_max_contiguous", 0), ("vsize", 0), ("explicit", 500),
        ("heap_overhead", 0), ("heap_unclassified", 300), ("images", 200),
        ("js_main_runtime", 0), ("top_none_detached", 0)] :=
  claim7_permutation 1 1 true true
    [⟨"(pid 7)", "heap-allocated", KIND_NONHEAP, UNITS_BYTES, 500⟩,
     ⟨"(pid 7)", "explicit/images/foo", KIND_HEAP, UNITS_BYTES, 200⟩]
    [⟨"(pid 7)", "explicit/images/foo", KIND_HEAP, UNITS_BYTES, 200⟩,
     ⟨"(pid 7)", "heap-allocated", KIND_NONHEAP, UNITS_BYTES, 500⟩]
    7 _
    (List.Perm.swap _ _ _)
    rfl

/-- C9: units and kind are validated only under `explicit/`: a single
matching record whose path does not start with `explicit/` is accepted
whatever its units and kind are, and its amount is accumulated normally
(into the exact-match measured bucket, or `js-main-runtime` on that
prefix). -/
theorem claim9_nonexplicit_unvalidated (v : Int) (b : Bool) (r : Record)
    (pid : Int)
    (hm : strContains r.process (pidStr pid) = true)
    (he : strStartsWith r.path "explicit/" = false) :
    ∃ out, getMemoryMeasures ⟨v, b, [r]⟩ pid = .ok out ∧
      (∀ k ∈ metricsMeasuredKeys,
        getVal out (dashToUnderscore k) =
          if r.path = k then r.amount else 0) ∧
      getVal out "js_main_runtime" =
        (if strStartsWith r.path "js-main-runtime/" = true then r.amount
         else 0) := by
  have hall : ([r] : List Record).all (recordOk (pidStr pid)) = true := by
    simp [recordOk, recordValid, isExp, he]
  have hany : ([r] : List Record).any (recMatches (pidStr pid)) = true := by
    simp [recMatches, hm]
  refine ⟨_, gMM_ok v b [r] pid hall hany, ?_, ?_⟩
  · intro k hk
    have hkmem : k ∈ allKeys := List.mem_append_left _ hk
    rw [getVal_specOutput _ _ _ hkmem (d2u_injOn k hkmem)]
    have hne1 : k ≠ "heap-unclassified" := by
      intro hcc
      subst hcc
      revert hk
      decide
    have hne2 : k ≠ "explicit" := by
      intro hcc
      subst hcc
      revert hk
      decide
    rw [finalVal_other _ _ _ hne1 hne2, bucketSum_singleton]
    by_cases hj : strStartsWith r.path "js-main-runtime/" = true
    · have hbk : bucketOf r = some "js-main-runtime" := by
        simp [bucketOf, isExp, he, hj]
      have hknjs : k ≠ "js-main-runtime" := by
        intro hcc
        subst hcc
        revert hk
        decide
      have hmj : ∀ k' ∈ metricsMeasuredKeys,
          strStartsWith k' "js-main-runtime/" = false := by decide
      have hrp : ¬(r.path = k) := by
        intro hcc
        rw [hcc] at hj
        rw [hmj k hk] at hj
        exact absurd hj (by simp)
      have hneq : (bucketOf r == some k) = false := by
        rw [hbk]
        simp only [beq_eq_false_iff_ne]
        intro hcc
        injection hcc with hcc
        exact hknjs hcc.symm
      simp [contrib, hneq, hrp]
    · have hj' : strStartsWith r.path "js-main-runtime/" = false := by
        simpa using hj
      by_cases hpk : r.path = k
      · have hcon : metricsMeasuredKeys.contains r.path = true := by
          rw [hpk]
          simpa using hk
        have hconm : r.path ∈ metricsMeasuredKeys := by simpa using hcon
        have hbk : bucketOf r = some r.path := by
          simp [bucketOf, isExp, he, hj', hcon, hconm]
        simp [contrib, recMatches, hm, hbk, hpk]
      · have hneq : bucketOf r ≠ some k := by
          cases hcon : metricsMeasuredKeys.contains r.path with
          | true =>
            have hconm : r.path ∈ metricsMeasuredKeys := by simpa using hcon
            have hbk : bucketOf r = some r.path := by
              simp [bucketOf, isExp, he, hj', hcon, hconm]
            rw [hbk]
            intro hcc
            injection hcc with hcc
            exact hpk hcc
          | false =>
            have hconm : r.path ∉ metricsMeasuredKeys := by simpa using hcon
            have hbk : bucketOf r = none := by
              simp [bucketOf, isExp, he, hj', hcon, hconm]
            rw [hbk]
            intro hcc
            exact Option.noConfusion hcc
        simp [contrib, beq_eq_false_iff_ne.mpr hneq, hpk]
  · rw [show ("js_main_runtime" : String) =
        dashToUnderscore "js-main-runtime" from rfl,
      getVal_specOutput _ _ _ (by decide)
        (d2u_injOn "js-main-runtime" (by decide)),
      finalVal_other _ _ _ (by decide) (by decide), bucketSum_singleton]
    by_cases hj : strStartsWith r.path "js-main-runtime/" = true
    · have hbk : bucketOf r = some "js-main-runtime" := by
        simp [bucketOf, isExp, he, hj]
      simp [contrib, recMatches, hm, hbk, hj]
    · have hj' : strStartsWith r.path "js-main-runtime/" = false := by
        simpa using hj
      have hneq : bucketOf r ≠ some "js-main-runtime" := by
        cases hcon : metricsMeasuredKeys.contains r.path with
        | true =>
          have hconm : r.path ∈ metricsMeasuredKeys := by simpa using hcon
          have hbk : bucketOf r = some r.path := by
            simp [bucketOf, isExp, he, hj', hcon, hconm]
          have hmem : r.path ∈ metricsMeasuredKeys := by simpa using hcon
          have hmj : ∀ k' ∈ metricsMeasuredKeys,
              k' ≠ "js-main-runtime" := by decide
          rw [hbk]
          intro hcc
          injection hcc with hcc
          exact hmj r.path hmem hcc
        | false =>
          have hconm : r.path ∉ metricsMeasuredKeys := by simpa using hcon
          have hbk : bucketOf r = none := by
            simp [bucketOf, isExp, he, hj', hcon, hconm]
          rw [hbk]
          intro hcc
          exact Option.noConfusion hcc
      simp [contrib, beq_eq_false_iff_ne.mpr hneq, hj']

/-- C9 witness at a concrete input: a matching `resident` record with
kind 42 and units 999 is accepted and accumulated. -/
theorem claim9_witness :
    ∃ out, getMemoryMeasures
        ⟨1, true, [⟨"(pid 7)", "resident", 42, 999, 1000⟩]⟩ 7 = .ok out ∧
      (∀ k ∈ metricsMeasuredKeys,
        getVal out (dashToUnderscore k) =
          if (⟨"(pid 7)", "resident", 42, 999, 1000⟩ : Record).path = k
          then (⟨"(pid 7)", "resident", 42, 999, 1000⟩ : Record).amount
          else 0) ∧
      getVal out "js_main_runtime" =
        (if strStartsWith
            (⟨"(pid 7)", "resident", 42, 999, 1000⟩ : Record).path
            "js-main-runtime/" = true
         then (⟨"(pid 7)", "resident", 42, 999, 1000⟩ : Record).amount
         else 0) :=
  claim9_nonexplicit_unvalidated 1 true
    ⟨"(pid 7)", "resident", 42, 999, 1000⟩ 7 (by decide) (by decide)

/-- C1 counterexample: the record
`{process: "(pid 7)", path: "explicit/images/top(none)/detached",
kind: HEAP, units: BYTES, amount: 5}` satisfies both the
`explicit/images/` prefix condition and the `top(none)/detached`
substring condition, yet its amount lands only in `images`:
`top_none_detached` stays 0, so the derived-bucket rules are not applied
non-exclusively. -/
theorem claim1_counterexample :
    strStartsWith "explicit/images/top(none)/detached" "explicit/images/" =
        true ∧
    strContains "explicit/images/top(none)/detached" "top(none)/detached" =
        true ∧
    (getMemoryMeasures
        ⟨1, true, [⟨"(pid 7)", "explicit/images/top(none)/detached",
          KIND_HEAP, UNITS_BYTES, 5⟩]⟩ 7).map
      (fun out => (getVal out "images", getVal out "top_none_detached")) =
      .ok (5, 0) :=
  ⟨rfl, rfl, rfl⟩

/-- C1 (amended): for a matching, validated `explicit/` record the three
derived-bucket rules are applied exclusively, first match wins, in the
order `explicit/images/` prefix, `top(none)/detached` substring,
`explicit/heap-overhead/` prefix: the amount is added to `images` iff the
first condition holds, to `top-none-detached` iff only the second holds,
and to `heap-overhead` iff only the third holds, so a record contributes
to at most one of the three (while still feeding the explicit
heap/non-heap totals). -/
theorem claim1_amended (v : Int) (b : Bool) (r : Record) (pid : Int)
    (hm : strContains r.process (pidStr pid) = true)
    (he : strStartsWith r.path "explicit/" = true)
    (hu : r.units = UNITS_BYTES)
    (hk : r.kind = KIND_NONHEAP ∨ r.kind = KIND_HEAP) :
    ∃ out, getMemoryMeasures ⟨v, b, [r]⟩ pid = .ok out ∧
      getVal out "images" =
        (if strStartsWith r.path "explicit/images/" = true then r.amount
         else 0) ∧
      getVal out "top_none_detached" =
        (if strStartsWith r.path "explicit/images/" = false ∧
            strContains r.path "top(none)/detached" = true then r.amount
         else 0) ∧
      getVal out "heap_overhead" =
        (if strStartsWith r.path "explicit/images/" = false ∧
            strContains r.path "top(none)/detached" = false ∧
            strStartsWith r.path "explicit/heap-overhead/" = true
         then r.amount else 0) := by
  have hall : ([r] : List Record).all (recordOk (pidStr pid)) = true := by
    rcases hk with hk | hk <;>
      simp [recordOk, recMatches, hm, recordValid, isExp, he, hu, hk,
        KIND_NONHEAP, KIND_HEAP, UNITS_BYTES]
  have hany : ([r] : List Record).any (recMatches (pidStr pid)) = true := by
    simp [recMatches, hm]
  refine ⟨_, gMM_ok v b [r] pid hall hany, ?_, ?_, ?_⟩
  · rw [show ("images" : String) = dashToUnderscore "images" from rfl,
      getVal_specOutput _ _ _ (by decide) (d2u_injOn "images" (by decide)),
      finalVal_other _ _ _ (by decide) (by decide), bucketSum_singleton]
    by_cases h1 : strStartsWith r.path "explicit/images/" = true
    · have hbk := bucketOf_exp_images r he h1
      simp [contrib, recMatches, hm, hbk, h1]
    · have h1' : strStartsWith r.path "explicit/images/" = false := by
        simpa using h1
      by_cases h2 : strContains r.path "top(none)/detached" = true
      · have hbk := bucketOf_exp_tnd r he h1' h2
        simp [contrib, recMatches, hm, hbk, h1']
      · have h2' : strContains r.path "top(none)/detached" = false := by
          simpa using h2
        by_cases h3 : strStartsWith r.path "explicit/heap-overhead/" = true
        · have hbk := bucketOf_exp_ho r he h1' h2' h3
          simp [contrib, recMatches, hm, hbk, h1']
        · have h3' : strStartsWith r.path "explicit/heap-overhead/" = false := by
            simpa using h3
          have hbk := bucketOf_exp_none r he h1' h2' h3'
          simp [contrib, recMatches, hm, hbk, h1']
  · rw [show ("top_none_detached" : String) =
        dashToUnderscore "top-none-detached" from rfl,
      getVal_specOutput _ _ _ (by decide)
        (d2u_injOn "top-none-detached" (by decide)),
      finalVal_other _ _ _ (by decide) (by decide), bucketSum_singleton]
    by_cases h1 : strStartsWith r.path "explicit/images/" = true
    · have hbk := bucketOf_exp_images r he h1
      simp [contrib, recMatches, hm, hbk, h1]
    · have h1' : strStartsWith r.path "explicit/images/" = false := by
        simpa using h1
      by_cases h2 : strContains r.path "top(none)/detached" = true
      · have hbk := bucketOf_exp_tnd r he h1' h2
        simp [contrib, recMatches, hm, hbk, h1', h2]
      · have h2' : strContains r.path "top(none)/detached" = false := by
          simpa using h2
        by_cases h3 : strStartsWith r.path "explicit/heap-overhead/" = true
        · have hbk := bucketOf_exp_ho r he h1' h2' h3
          simp [contrib, recMatches, hm, hbk, h2']
        · have h3' : strStartsWith r.path "explicit/heap-overhead/" = false := by
            simpa using h3
          have hbk := bucketOf_exp_none r he h1' h2' h3'
          simp [contrib, recMatches, hm, hbk, h2']
  · rw [show ("heap_overhead" : String) =
        dashToUnderscore "heap-overhead" from rfl,
      getVal_specOutput _ _ _ (by decide)
        (d2u_injOn "heap-overhead" (by decide)),
      finalVal_other _ _ _ (by decide) (by decide), bucketSum_singleton]
    by_cases h1 : strStartsWith r.path "explicit/images/" = true
    · have hbk := bucketOf_exp_images r he h1
      simp [contrib, recMatches, hm, hbk, h1]
    · have h1' : strStartsWith r.path "explicit/images/" = false := by
        simpa using h1
      by_cases h2 : strContains r.path "top(none)/detached" = true
      · have hbk := bucketOf_exp_tnd r he h1' h2
        simp [contrib, recMatches, hm, hbk, h2]
      · have h2' : strContains r.path "top(none)/detached" = false := by
          simpa using h2
        by_cases h3 : strStartsWith r.path "explicit/heap-overhead/" = true
        · have hbk := bucketOf_exp_ho r he h1' h2' h3
          simp [contrib, recMatches, hm, hbk, h1', h2', h3]
        · have h3' : strStartsWith r.path "explicit/heap-overhead/" = false := by
            simpa using h3
          have hbk := bucketOf_exp_none r he h1' h2' h3'
          simp [contrib, recMatches, hm, hbk, h3']

/-- C1 witness at a concrete input: a matching NONHEAP
`explicit/heap-overhead/x` record of amount 7 for pid 3. -/
theorem claim1_witness :
    ∃ out, getMemoryMeasures
        ⟨1, true, [⟨"(pid 3)", "explicit/heap-overhead/x", KIND_NONHEAP,
          UNITS_BYTES, 7⟩]⟩ 3 = .ok out ∧
      getVal out "images" =
        (if strStartsWith "explicit/heap-overhead/x" "explicit/images/" =
            true then (7 : Int) else 0) ∧
      getVal out "top_none_detached" =
        (if strStartsWith "explicit/heap-overhead/x" "explicit/images/" =
            false ∧
            strContains "explicit/heap-overhead/x" "top(none)/detached" =
            true then (7 : Int) else 0) ∧
      getVal out "heap_overhead" =
        (if strStartsWith "explicit/heap-overhead/x" "explicit/images/" =
            false ∧
            strContains "explicit/heap-overhead/x" "top(none)/detached" =
            false ∧
            strStartsWith "explicit/heap-overhead/x"
              "explicit/heap-overhead/" = true
         then (7 : Int) else 0) :=
  claim1_amended 1 true
    ⟨"(pid 3)", "explicit/heap-overhead/x", KIND_NONHEAP, UNITS_BYTES, 7⟩ 3
    (by decide) (by decide) rfl (Or.inl rfl)

end MemRep
